import Mathlib

/-!
Verification development for the alternative-drug recommendation system
(`src/app.py`).  The Python code is shallowly embedded: strings are lists of
characters, pandas rows are Lean structures, the pandas column operations
become list operations, and the three opaque model artifacts (tfidf
vectorizer, classifier, label encoder) are parameters of the recommendation
function.  Missing values (`NaN`) are `Option.none`.
-/

/-- Strings are modelled as lists of characters (the relevant Python string
operations are character-wise). -/
abbrev Str := List Char

/-- Model of Python `str.lower()` (character-wise lowercasing). -/
def pyLower (s : Str) : Str := s.map Char.toLower

/-- Model of Python `str.lstrip()`: drop leading whitespace. -/
def lstrip (s : Str) : Str := s.dropWhile Char.isWhitespace

/-- Model of Python `str.rstrip()`: drop trailing whitespace. -/
def rstrip (s : Str) : Str := (s.reverse.dropWhile Char.isWhitespace).reverse

/-- Model of Python `str.strip()`: drop leading and trailing whitespace. -/
def pyStrip (s : Str) : Str := rstrip (lstrip s)

/-- Model of `re.sub(r"[()\[\],]", " ", text)` in `clean_composition`
(src/app.py line 28): each of the five punctuation characters is replaced
by a space. -/
def replacePunct (s : Str) : Str :=
  s.map (fun c => if c = '(' ∨ c = ')' ∨ c = '[' ∨ c = ']' ∨ c = ',' then ' ' else c)

/-- Model of `re.sub(r"\s+", " ", text)` in `clean_composition`
(src/app.py line 29): every maximal run of whitespace characters is replaced
by a single space. -/
def collapseWs : Str → Str
  | [] => []
  | c :: cs =>
    if c.isWhitespace then ' ' :: collapseWs (cs.dropWhile Char.isWhitespace)
    else c :: collapseWs cs
termination_by s => s.length
decreasing_by
  all_goals simp only [List.length_cons]
  · exact Nat.lt_succ_of_le (List.Sublist.length_le (List.dropWhile_sublist _))
  · exact Nat.lt_succ_self _

/-- The source's `clean_composition` function (src/app.py lines 24-30):
absent input (`pd.isna`) gives the empty string, otherwise lowercase, replace
the punctuation class by spaces, collapse whitespace runs to single spaces,
and strip. -/
def clean_composition (text : Option Str) : Str :=
  match text with
  | none => []
  | some s => pyStrip (collapseWs (replacePunct (pyLower s)))

/-- The maximal non-whitespace chunks of a string, in order.  Used only by
`cleanCompositionSpec` below. -/
def wordsOf : Str → List Str
  | [] => []
  | c :: cs =>
    if c.isWhitespace then wordsOf cs
    else (c :: cs.takeWhile (fun x => !x.isWhitespace)) ::
      wordsOf (cs.dropWhile (fun x => !x.isWhitespace))
termination_by s => s.length
decreasing_by
  all_goals simp only [List.length_cons]
  · exact Nat.lt_succ_self _
  · exact Nat.lt_succ_of_le (List.Sublist.length_le (List.dropWhile_sublist _))

/-- Model of Python `" ".join(parts)`. -/
def joinSpace : List Str → Str
  | [] => []
  | [w] => w
  | w :: v :: ws => w ++ ' ' :: joinSpace (v :: ws)

/-- The spec's wording of the normalizer (spec section 4.1), as a separate
definition to be compared with the source's `clean_composition`: absent value
gives the empty string; otherwise lowercase, replace each of the punctuation
characters with a space, and render the resulting whitespace-separated words
joined by single spaces (which is what collapsing whitespace runs to a single
space plus trimming both ends amounts to). -/
def cleanCompositionSpec (text : Option Str) : Str :=
  match text with
  | none => []
  | some s => joinSpace (wordsOf (replacePunct (pyLower s)))

/-- Boolean test that the first list is an initial segment of the second. -/
def listStartsWith : Str → Str → Bool
  | [], _ => true
  | _ :: _, [] => false
  | a :: as, b :: bs => a == b && listStartsWith as bs

/-- Model of `re.findall(r"\d+\s*mg|\d+\s*ml|\d+\s*mcg", text)` (src/app.py
line 50): scan left to right; at a digit, take the maximal digit run, the
maximal following whitespace run, and then the first of the unit literals
`mg`, `ml`, `mcg` (in the pattern's alternation order) that follows; the
matched text (digits, whitespace and unit verbatim) is emitted and scanning
resumes after the match.  On failure scanning advances one character.  The
greedy `\d+` and `\s*` never need to backtrack here because no unit starts
with a digit or a whitespace character. -/
def scanDosage : Str → List Str
  | [] => []
  | c :: cs =>
    if c.isDigit then
      let ds := (c :: cs).takeWhile Char.isDigit
      let r1 := cs.dropWhile Char.isDigit
      let sp := r1.takeWhile Char.isWhitespace
      let r2 := r1.dropWhile Char.isWhitespace
      if listStartsWith "mg".data r2 then (ds ++ sp ++ "mg".data) :: scanDosage (r2.drop 2)
      else if listStartsWith "ml".data r2 then (ds ++ sp ++ "ml".data) :: scanDosage (r2.drop 2)
      else if listStartsWith "mcg".data r2 then (ds ++ sp ++ "mcg".data) :: scanDosage (r2.drop 3)
      else scanDosage cs
    else scanDosage cs
termination_by s => s.length
decreasing_by
  all_goals
    simp only [List.length_cons, List.length_drop]
    have h1 : (List.dropWhile Char.isDigit cs).length ≤ cs.length :=
      List.Sublist.length_le (List.dropWhile_sublist _)
    have h2 : ((List.dropWhile Char.isDigit cs).dropWhile Char.isWhitespace).length ≤
        (List.dropWhile Char.isDigit cs).length :=
      List.Sublist.length_le (List.dropWhile_sublist _)
    omega

/-- The source's `extract_dosage` function (src/app.py lines 48-51):
lowercase, find all dosage-token matches, join them with single spaces. -/
def extract_dosage (text : Str) : Str :=
  joinSpace (scanDosage (pyLower text))

/-- Numeric value of a digit string (most significant first). -/
def digitsToNat (ds : Str) : ℕ := ds.foldl (fun acc c => 10 * acc + (c.toNat - 48)) 0

/-- Unsigned part of the numeric grammar accepted by `parseNum`: an integer
part, optionally followed by a decimal point and a fraction part, with at
least one digit overall and nothing else. -/
def parseNumCore (t : Str) : Option ℚ :=
  let ip := t.takeWhile Char.isDigit
  let r := t.dropWhile Char.isDigit
  match r with
  | [] => if ip.isEmpty then none else some (digitsToNat ip)
  | '.' :: fr =>
    let fp := fr.takeWhile Char.isDigit
    let r2 := fr.dropWhile Char.isDigit
    if r2.isEmpty && !(ip.isEmpty && fp.isEmpty) then
      some ((digitsToNat ip : ℚ) + (digitsToNat fp : ℚ) / (10 : ℚ) ^ fp.length)
    else none
  | _ => none

/-- Model of the numeric coercion performed by
`pd.to_numeric(df["price"], errors="coerce")` (src/app.py line 19) on a
single cell: surrounding whitespace is ignored, an optional sign followed by
a decimal literal parses to its value, and anything else coerces to the
missing marker (`none`, standing for pandas `NaN`). -/
def parseNum (s : Str) : Option ℚ :=
  match pyStrip s with
  | '-' :: t => (parseNumCore t).map (fun q => -q)
  | '+' :: t => parseNumCore t
  | t => parseNumCore t

/-- Price of a raw CSV cell after the coercion of src/app.py line 19: an
absent cell stays missing, a present cell is parsed, unparseable text
becomes missing. -/
def priceOf (cell : Option Str) : Option ℚ := cell.bind parseNum

/-- One raw CSV row of the input dataset, restricted to the columns the code
uses: `name`, `short_composition1`, `short_composition2`, `price`.  A missing
cell (pandas `NaN`) is `none`; the raw `price` cell is kept as text, it is
coerced by `priceOf`. -/
structure RawRow where
  name : Str
  short_composition1 : Option Str
  short_composition2 : Option Str
  price : Option Str
deriving DecidableEq

/-- The `composition` column (src/app.py lines 32-35):
`short_composition1.fillna("") + " " + short_composition2.fillna("")`. -/
def compositionOf (row : RawRow) : Str :=
  (row.short_composition1.getD []) ++ ' ' :: (row.short_composition2.getD [])

/-- The `clean_composition` column value of a raw row (src/app.py line 37).
After `fillna` the concatenation is a real string, so `pd.isna` is false and
the argument is always `some`. -/
def cleanCompOf (row : RawRow) : Str := clean_composition (some (compositionOf row))

/-- Index of the first occurrence of a string in a list of strings; the
category code of a value relative to the sorted distinct category values. -/
def idxOfStr (a : Str) : List Str → ℕ
  | [] => 0
  | b :: bs => if a = b then 0 else idxOfStr a bs + 1

/-- One row of the working table after the module-level load pipeline, with
the derived columns. -/
structure Record where
  name : Str
  clean_name : Str
  clean_composition : Str
  dosage : Str
  drug_group : ℕ
  price : Option ℚ
deriving DecidableEq

/-- Lexicographic order on character lists, modelling the order pandas uses
to sort the distinct category values of a string column. -/
def charListLe : Str → Str → Bool
  | [], _ => true
  | _ :: _, [] => false
  | a :: as, b :: bs => if a < b then true else if b < a then false else charListLe as bs

/-- Ordered insertion used by `sortBy`. -/
def insertBy (le : α → α → Bool) (a : α) : List α → List α
  | [] => [a]
  | b :: bs => if le a b then a :: b :: bs else b :: insertBy le a bs

/-- Insertion sort by a boolean comparator.  Pandas sorts with quicksort,
which leaves the relative order of equal keys unspecified; insertion sort is
one refinement of that. -/
def sortBy (le : α → α → Bool) : List α → List α
  | [] => []
  | a :: as => insertBy le a (sortBy le as)

/-- Collapse adjacent duplicates of a sorted list, giving the sorted distinct
values. -/
def dedupAdj [DecidableEq α] : List α → List α
  | [] => []
  | [a] => [a]
  | a :: b :: rest => if a = b then dedupAdj (b :: rest) else a :: dedupAdj (b :: rest)

/-- The categories of `df["clean_composition"].astype("category")`
(src/app.py line 58): the distinct values in sorted order.  `cat.codes` is
the index of a value in this list. -/
def categoriesOf (comps : List Str) : List Str := dedupAdj (sortBy charListLe comps)

/-- One record of the working table built from a kept raw row, given the
category list used for `drug_group` codes:
`clean_name` is `name.lower().strip()` (line 43), `dosage` is
`extract_dosage(name)` (line 53), `drug_group` is the category code of the
row's `clean_composition` (line 58), `price` is the coerced price (line 19). -/
def mkRecord (cats : List Str) (row : RawRow) : Record :=
  { name := row.name
    clean_name := pyStrip (pyLower row.name)
    clean_composition := cleanCompOf row
    dosage := extract_dosage row.name
    drug_group := idxOfStr (cleanCompOf row) cats
    price := priceOf row.price }

/-- The module-level load pipeline (src/app.py lines 16-58): coerce price,
derive `composition` and `clean_composition`, drop rows whose
`clean_composition` is empty, derive `clean_name` and `dosage`, and assign
`drug_group` as the category code of `clean_composition` over the kept
rows. -/
def buildTable (rows : List RawRow) : List Record :=
  (rows.filter (fun row => cleanCompOf row ≠ [])).map
    (mkRecord (categoriesOf ((rows.filter (fun row => cleanCompOf row ≠ [])).map cleanCompOf)))

/-- The projection `[["name", "clean_composition", "price"]]` applied to the
candidate rows in `recommend_alternatives` (src/app.py line 89). -/
structure Alt where
  name : Str
  clean_composition : Str
  price : Option ℚ
deriving DecidableEq

/-- Project a table record onto the three returned columns. -/
def toAlt (r : Record) : Alt :=
  { name := r.name, clean_composition := r.clean_composition, price := r.price }

/-- Comparator of `df.sort_values(by="price", ascending=True)` on the price
column: known prices compare numerically and a missing price (pandas `NaN`)
is placed after every known price (the pandas default `na_position` is
last). -/
def priceLe (a b : Alt) : Bool :=
  match a.price, b.price with
  | none, none => true
  | none, some _ => false
  | some _, none => true
  | some x, some y => x ≤ y

/-- Model of `alternatives.sort_values(by="price", ascending=True)`
(src/app.py line 95). -/
def sortByPrice (l : List Alt) : List Alt := sortBy priceLe l

/-- Model of `DataFrame.head(n)` (src/app.py line 97): the first `n` rows
for `n ≥ 0`, and all rows but the last `|n|` for negative `n` (pandas
semantics). -/
def pdHead (n : ℤ) (l : List α) : List α :=
  if 0 ≤ n then l.take n.toNat else l.take (l.length - (-n).toNat)

/-- Boolean substring test, modelling Python `key in s` as used by
`df["clean_name"].str.contains(key, regex=False)` (src/app.py line 73). -/
def isSubstr (needle : Str) : Str → Bool
  | [] => needle.isEmpty
  | c :: rest => listStartsWith needle (c :: rest) || isSubstr needle rest

/-- The normalized query key `medicine_name.lower().strip()` (src/app.py
line 71). -/
def queryKey (medicine_name : Str) : Str := pyStrip (pyLower medicine_name)

/-- The match set
`df[df["clean_name"].str.contains(key, regex=False)]` (src/app.py
line 73). -/
def matchesOf (df : List Record) (key : Str) : List Record :=
  df.filter (fun r => isSubstr key r.clean_name)

/-- The reference record `matches.iloc[0]` guarded by the emptiness check
(src/app.py lines 74-77): the first matching record in table order, if
any. -/
def referenceOf (df : List Record) (key : Str) : Option Record :=
  (matchesOf df key).head?

/-- The candidate filter of src/app.py lines 85-89: same `drug_group` as the
predicted group, byte-identical `dosage`, different `clean_name`. -/
def candidatesOf (df : List Record) (real_group : ℕ) (ref : Record) : List Record :=
  df.filter (fun r =>
    r.drug_group = real_group ∧ r.dosage = ref.dosage ∧ r.clean_name ≠ ref.clean_name)

/-- The source's `recommend_alternatives` (src/app.py lines 70-97).  The
three pre-trained artifacts are opaque; the composed call
`label_encoder.inverse_transform(model.predict(tfidf.transform([comp])))[0]`
is modelled by the parameter `predict`, a total function from the reference's
`clean_composition` to the predicted group label (see `recommendE` for the
variant in which the artifact calls can raise).  `none` is the `not_found`
signal (Python `None`). -/
def recommend_alternatives (df : List Record) (predict : Str → ℕ)
    (medicine_name : Str) (top_n : ℤ) : Option (List Alt) :=
  match referenceOf df (queryKey medicine_name) with
  | none => none
  | some row =>
    let alternatives := (candidatesOf df (predict row.clean_composition) row).map toAlt
    if alternatives.isEmpty then none
    else some (pdHead top_n (sortByPrice alternatives))

/-- Exception-aware embedding of `recommend_alternatives`: the three
artifact calls of src/app.py lines 81-83 may fail (`Except.error`), and since
the source wraps them in no try/except, a failure aborts the whole call.
`Except.ok none` is the `not_found` return. -/
def recommendE {Vec : Type} (df : List Record)
    (tfidfTransform : Str → Except String Vec)
    (modelPredict : Vec → Except String ℕ)
    (inverseTransform : ℕ → Except String ℕ)
    (medicine_name : Str) (top_n : ℤ) : Except String (Option (List Alt)) :=
  match referenceOf df (queryKey medicine_name) with
  | none => Except.ok none
  | some row => do
    let vec ← tfidfTransform row.clean_composition
    let pred ← modelPredict vec
    let real_group ← inverseTransform pred
    let alternatives := (candidatesOf df real_group row).map toAlt
    if alternatives.isEmpty then pure none
    else pure (some (pdHead top_n (sortByPrice alternatives)))

/-! ## Concrete fixtures used by the witness theorems -/

/-- A predictor that puts every composition in group `0`. -/
def demoPredict : Str → ℕ := fun _ => 0

/-- Table record: Paracetamol 500mg, group 0, dosage key `500mg`, price 10. -/
def demoRec1 : Record :=
  ⟨"Paracetamol 500mg".data, "paracetamol 500mg".data, "paracetamol".data,
    "500mg".data, 0, some 10⟩

/-- Table record: Crocin 500mg, group 0, dosage key `500mg`, price 8. -/
def demoRec2 : Record :=
  ⟨"Crocin 500mg".data, "crocin 500mg".data, "paracetamol".data,
    "500mg".data, 0, some 8⟩

/-- Table record: Paracetamol 650mg, group 0, dosage key `650mg`, price 12. -/
def demoRec3 : Record :=
  ⟨"Paracetamol 650mg".data, "paracetamol 650mg".data, "paracetamol".data,
    "650mg".data, 0, some 12⟩

/-- Table record: Dolo 500mg, group 0, dosage key `500mg`, missing price. -/
def demoRec4 : Record :=
  ⟨"Dolo 500mg".data, "dolo 500mg".data, "paracetamol".data,
    "500mg".data, 0, none⟩

/-- A small working table. -/
def demoTable : List Record := [demoRec1, demoRec2, demoRec3, demoRec4]

/-- A raw CSV row with a composition and an unparseable price cell. -/
def demoRawKept : RawRow :=
  ⟨"Para 500mg".data, some "Paracetamol (500mg)".data, none, some "N/A".data⟩

/-- A raw CSV row whose two composition cells are both absent. -/
def demoRawEmptyComp : RawRow :=
  ⟨"Mystery Tonic".data, none, none, some "12".data⟩

/-- A small raw dataset. -/
def demoRows : List RawRow := [demoRawKept, demoRawEmptyComp]

/-! ## Helper lemmas -/

/-- The head of a filtered list is the first element satisfying the
predicate. -/
theorem filter_head?_eq_find? (p : α → Bool) (l : List α) :
    (l.filter p).head? = l.find? p := by
  induction l with
  | nil => rfl
  | cons a l ih =>
    by_cases h : p a
    · simp [List.filter_cons, List.find?_cons, h]
    · simp only [Bool.not_eq_true] at h
      simp [List.filter_cons, List.find?_cons, h, ih]

/-- The empty string is a substring of every string. -/
theorem isSubstr_nil (hay : Str) : isSubstr [] hay = true := by
  cases hay <;> rfl

/-- ASCII lowercasing maps whitespace to whitespace. -/
theorem toLower_isWhitespace {c : Char} (h : c.isWhitespace = true) :
    (Char.toLower c).isWhitespace = true := by
  simp only [Char.isWhitespace, Bool.or_eq_true, decide_eq_true_eq] at h
  rcases h with ((h | h) | h) | h <;> subst h <;> decide

/-- Stripping a string of whitespace characters leaves nothing. -/
theorem pyStrip_eq_nil_of_ws {s : Str} (h : ∀ c ∈ s, c.isWhitespace = true) :
    pyStrip s = [] := by
  have hl : lstrip s = [] := by
    simp only [lstrip, List.dropWhile_eq_nil_iff]
    exact fun c hc => h c hc
  simp [pyStrip, hl, rstrip]

/-- Membership in an ordered insertion. -/
theorem mem_insertBy {le : α → α → Bool} {x y : α} {l : List α} :
    y ∈ insertBy le x l ↔ y = x ∨ y ∈ l := by
  induction l with
  | nil => simp [insertBy]
  | cons b bs ih =>
    by_cases h : le x b
    · simp [insertBy, h]
    · simp only [Bool.not_eq_true] at h
      simp [insertBy, h, ih]
      tauto

/-- Ordered insertion preserves pairwise sortedness for a total transitive
comparator. -/
theorem pairwise_insertBy {le : α → α → Bool}
    (htot : ∀ a b, le a b = true ∨ le b a = true)
    (htrans : ∀ a b c, le a b = true → le b c = true → le a c = true)
    {x : α} {l : List α} (h : l.Pairwise (fun a b => le a b = true)) :
    (insertBy le x l).Pairwise (fun a b => le a b = true) := by
  induction l with
  | nil => simp [insertBy]
  | cons b bs ih =>
    rcases h with _ | ⟨hb, hbs⟩
    by_cases hxb : le x b
    · rw [show insertBy le x (b :: bs) = x :: b :: bs from by simp [insertBy, hxb]]
      refine List.Pairwise.cons ?_ (List.Pairwise.cons hb hbs)
      intro y hy
      rcases List.mem_cons.mp hy with rfl | hy
      · exact hxb
      · exact htrans x b y hxb (hb y hy)
    · simp only [Bool.not_eq_true] at hxb
      simp only [insertBy, hxb, Bool.false_eq_true, if_false]
      refine List.Pairwise.cons ?_ (ih hbs)
      intro y hy
      rcases mem_insertBy.mp hy with rfl | hy
      · rcases htot b y with hby | hyb
        · exact hby
        · rw [hxb] at hyb
          exact absurd hyb (by simp)
      · exact hb y hy

/-- Insertion sort produces a pairwise sorted list for a total transitive
comparator. -/
theorem pairwise_sortBy {le : α → α → Bool}
    (htot : ∀ a b, le a b = true ∨ le b a = true)
    (htrans : ∀ a b c, le a b = true → le b c = true → le a c = true)
    (l : List α) : (sortBy le l).Pairwise (fun a b => le a b = true) := by
  induction l with
  | nil => simp [sortBy]
  | cons a as ih => exact pairwise_insertBy htot htrans ih


/-! ## Claim C6 -/

/-- C6 counterexample: the two names differ only in the whitespace between
the numeric value and the unit, yet `extract_dosage` does not return
byte-identical dosage keys. -/
theorem c6_counterexample :
    extract_dosage "Paracetamol 500 mg".data ≠ extract_dosage "Paracetamol 500mg".data := by
  simp [extract_dosage, pyLower, scanDosage, listStartsWith, joinSpace]

/-- C6 amended: `re.findall` returns the matched text verbatim, so the
whitespace matched by the `\s*` between the digits and the unit is preserved
in the dosage key, not normalized away: "Paracetamol 500 mg" keys to
"500 mg" while "Paracetamol 500mg" keys to "500mg". -/
theorem c6_dosage_spacing_preserved :
    extract_dosage "Paracetamol 500 mg".data = "500 mg".data ∧
    extract_dosage "Paracetamol 500mg".data = "500mg".data := by
  constructor <;> simp [extract_dosage, pyLower, scanDosage, listStartsWith, joinSpace]

/-! ## Claim C7 -/

/-- C7: the price coercion sends the unparseable cell "N/A" to the missing
marker, and every loaded record built from a row whose price cell is absent
or fails coercion carries the missing price marker — never `some` of any
number (in particular never zero); the load itself is a total function and
cannot fail on such a row. -/
theorem c7_price_coercion_missing :
    parseNum "N/A".data = none ∧
    ∀ (rows : List RawRow) (row : RawRow), row ∈ rows →
      (row.price = none ∨ ∃ s, row.price = some s ∧ parseNum s = none) →
      cleanCompOf row ≠ [] →
      ∃ rec ∈ buildTable rows, rec.name = row.name ∧ rec.price = none ∧
        ∀ q : ℚ, rec.price ≠ some q := by
  refine ⟨by decide, ?_⟩
  intro rows row hmem hfail hkeep
  have hnone : (mkRecord (categoriesOf
      ((rows.filter (fun row => cleanCompOf row ≠ [])).map cleanCompOf)) row).price = none := by
    rcases hfail with h | ⟨s, hs, hp⟩
    · simp [mkRecord, priceOf, h]
    · simp [mkRecord, priceOf, hs, hp]
  refine ⟨mkRecord (categoriesOf
      ((rows.filter (fun row => cleanCompOf row ≠ [])).map cleanCompOf)) row,
    ?_, rfl, hnone, ?_⟩
  · show _ ∈ (rows.filter (fun row => cleanCompOf row ≠ [])).map
      (mkRecord (categoriesOf ((rows.filter (fun row => cleanCompOf row ≠ [])).map cleanCompOf)))
    exact List.mem_map_of_mem _ (List.mem_filter.mpr ⟨hmem, by simpa using hkeep⟩)
  · intro q
    rw [hnone]
    simp

/-- C7 witness: the demo dataset's first row has price cell "N/A" and a
non-empty composition; the loaded record keeps an explicitly missing
price. -/
theorem c7_witness :
    ∃ rec ∈ buildTable demoRows, rec.name = demoRawKept.name ∧ rec.price = none ∧
      ∀ q : ℚ, rec.price ≠ some q :=
  c7_price_coercion_missing.2 demoRows demoRawKept (by decide)
    (Or.inr ⟨"N/A".data, rfl, by decide⟩)
    (by simp [cleanCompOf, compositionOf, demoRawKept, clean_composition, pyLower,
      replacePunct, collapseWs, pyStrip, lstrip, rstrip])

/-! ## Claim C8 -/

/-- C8: every record of the working table has a non-empty
`clean_composition`, and a raw row whose `short_composition1` and
`short_composition2` are both absent leaves no trace in the built table (the
load of a dataset with such a row equals the load of the dataset without
it, so no later operation can see such a record). -/
theorem c8_empty_composition_excluded :
    (∀ (rows : List RawRow) (r : Record), r ∈ buildTable rows → r.clean_composition ≠ []) ∧
    (∀ (l₁ l₂ : List RawRow) (row : RawRow),
      row.short_composition1 = none → row.short_composition2 = none →
      buildTable (l₁ ++ row :: l₂) = buildTable (l₁ ++ l₂)) := by
  constructor
  · intro rows r hr
    unfold buildTable at hr
    rcases List.mem_map.mp hr with ⟨row, hrow, rfl⟩
    have h := (List.mem_filter.mp hrow).2
    simpa [mkRecord] using h
  · intro l₁ l₂ row h1 h2
    have hempty : cleanCompOf row = [] := by
      simp [cleanCompOf, compositionOf, h1, h2, clean_composition, pyLower, replacePunct,
        collapseWs, pyStrip, lstrip, rstrip]
    have hfilter : (l₁ ++ row :: l₂).filter (fun row => cleanCompOf row ≠ []) =
        (l₁ ++ l₂).filter (fun row => cleanCompOf row ≠ []) := by
      simp [List.filter_append, List.filter_cons, hempty]
    unfold buildTable
    rw [hfilter]

/-- C8 witness: loading the demo dataset with its all-absent-composition row
gives the same table as loading it without that row. -/
theorem c8_witness :
    buildTable [demoRawKept, demoRawEmptyComp] = buildTable [demoRawKept] := by
  have h := c8_empty_composition_excluded.2 [demoRawKept] [] demoRawEmptyComp rfl rfl
  simpa using h

/-! ## Claim C10 -/

/-- C10: on a non-empty table, a query that is empty or all whitespace
normalizes to the empty key, which is a substring of every `clean_name`;
the match set is the whole table (so the matching step cannot produce
`not_found`) and the reference record is the table's first row. -/
theorem c10_empty_query_matches_all :
    ∀ (df : List Record) (q : Str), df ≠ [] → (∀ c ∈ q, c.isWhitespace = true) →
      matchesOf df (queryKey q) = df ∧ matchesOf df (queryKey q) ≠ [] ∧
      referenceOf df (queryKey q) = df.head? := by
  intro df q hdf hq
  have hkey : queryKey q = [] := by
    apply pyStrip_eq_nil_of_ws
    intro c hc
    rcases List.mem_map.mp hc with ⟨d, hd, rfl⟩
    exact toLower_isWhitespace (hq d hd)
  have hm : matchesOf df (queryKey q) = df := by
    rw [hkey]
    unfold matchesOf
    apply List.filter_eq_self.mpr
    intro r _
    exact isSubstr_nil r.clean_name
  exact ⟨hm, by rw [hm]; exact hdf, by unfold referenceOf; rw [hm]⟩

/-- C10 witness: the two-space query matches every record of the demo table
and its reference record is the first demo row. -/
theorem c10_witness :
    matchesOf demoTable (queryKey "  ".data) = demoTable ∧
    matchesOf demoTable (queryKey "  ".data) ≠ [] ∧
    referenceOf demoTable (queryKey "  ".data) = demoTable.head? :=
  c10_empty_query_matches_all demoTable "  ".data (by decide) (by decide)

/-! ## Claim C1 -/

/-- C1: when some record matches the query key, the reference record is the
first record in table order whose `clean_name` contains the normalized query
as a literal substring, and the candidate set is exactly the records whose
`drug_group` equals the label predicted from the reference's
`clean_composition`, whose `dosage` is byte-identical to the reference's,
and whose `clean_name` differs from the reference's;
`recommend_alternatives` computes its result from exactly that candidate
set. -/
theorem c1_reference_and_candidates :
    ∀ (df : List Record) (predict : Str → ℕ) (q : Str) (n : ℤ) (ref : Record),
      referenceOf df (queryKey q) = some ref →
      df.find? (fun r => isSubstr (queryKey q) r.clean_name) = some ref ∧
      (∀ r : Record, r ∈ candidatesOf df (predict ref.clean_composition) ref ↔
        r ∈ df ∧ r.drug_group = predict ref.clean_composition ∧
          r.dosage = ref.dosage ∧ r.clean_name ≠ ref.clean_name) ∧
      recommend_alternatives df predict q n =
        (if ((candidatesOf df (predict ref.clean_composition) ref).map toAlt).isEmpty then none
         else some (pdHead n (sortByPrice
           ((candidatesOf df (predict ref.clean_composition) ref).map toAlt)))) := by
  intro df predict q n ref href
  refine ⟨?_, ?_, ?_⟩
  · rw [← filter_head?_eq_find?]
    exact href
  · intro r
    constructor
    · intro h
      have hm := List.mem_filter.mp h
      exact ⟨hm.1, of_decide_eq_true hm.2⟩
    · intro h
      exact List.mem_filter.mpr ⟨h.1, decide_eq_true h.2⟩
  · simp only [recommend_alternatives, href]

/-- C1 witness: for the query "paracetamol" on the demo table the reference
is the first demo row, and the Crocin record satisfies the candidate
characterization. -/
theorem c1_witness :
    referenceOf demoTable (queryKey "paracetamol".data) = some demoRec1 ∧
    List.find? (fun r => isSubstr (queryKey "paracetamol".data) r.clean_name) demoTable =
      some demoRec1 ∧
    (demoRec2 ∈ candidatesOf demoTable (demoPredict demoRec1.clean_composition) demoRec1 ↔
      demoRec2 ∈ demoTable ∧
        demoRec2.drug_group = demoPredict demoRec1.clean_composition ∧
        demoRec2.dosage = demoRec1.dosage ∧
        demoRec2.clean_name ≠ demoRec1.clean_name) := by
  have h := c1_reference_and_candidates demoTable demoPredict "paracetamol".data 5 demoRec1
    (by decide)
  exact ⟨by decide, h.1, h.2.1 demoRec2⟩

/-! ## Claim C3 -/

/-- C3: `recommend_alternatives` returns the `not_found` signal exactly when
no record's `clean_name` contains the normalized query as a substring or the
candidate set after the group/dosage/name filter is empty; in particular any
table in which no `clean_name` contains "xyznonexistentdrug123" makes the
query "xyznonexistentdrug123" with `max_results = 5` return `not_found`. -/
theorem c3_not_found_iff :
    (∀ (df : List Record) (predict : Str → ℕ) (q : Str) (n : ℤ),
      recommend_alternatives df predict q n = none ↔
        ((∀ r ∈ df, isSubstr (queryKey q) r.clean_name = false) ∨
          ∃ ref, referenceOf df (queryKey q) = some ref ∧
            candidatesOf df (predict ref.clean_composition) ref = [])) ∧
    (∀ (df : List Record) (predict : Str → ℕ),
      (∀ r ∈ df, isSubstr "xyznonexistentdrug123".data r.clean_name = false) →
      recommend_alternatives df predict "xyznonexistentdrug123".data 5 = none) := by
  have main : ∀ (df : List Record) (predict : Str → ℕ) (q : Str) (n : ℤ),
      recommend_alternatives df predict q n = none ↔
        ((∀ r ∈ df, isSubstr (queryKey q) r.clean_name = false) ∨
          ∃ ref, referenceOf df (queryKey q) = some ref ∧
            candidatesOf df (predict ref.clean_composition) ref = []) := by
    intro df predict q n
    cases href : referenceOf df (queryKey q) with
    | none =>
      have hmatches : matchesOf df (queryKey q) = [] := by
        unfold referenceOf at href
        exact List.head?_eq_none_iff.mp href
      constructor
      · intro _
        left
        intro r hr
        cases h : isSubstr (queryKey q) r.clean_name
        · rfl
        · exfalso
          have hmem : r ∈ matchesOf df (queryKey q) := List.mem_filter.mpr ⟨hr, h⟩
          rw [hmatches] at hmem
          exact absurd hmem (List.not_mem_nil r)
      · intro _
        simp only [recommend_alternatives, href]
    | some ref =>
      have hrefmem : ref ∈ matchesOf df (queryKey q) := by
        unfold referenceOf at href
        exact List.mem_of_mem_head? (by rw [href]; rfl)
      have hrefdf : ref ∈ df := (List.mem_filter.mp hrefmem).1
      have hrefsub : isSubstr (queryKey q) ref.clean_name = true :=
        (List.mem_filter.mp hrefmem).2
      have hrec : recommend_alternatives df predict q n =
          (if ((candidatesOf df (predict ref.clean_composition) ref).map toAlt).isEmpty
            then none
            else some (pdHead n (sortByPrice
              ((candidatesOf df (predict ref.clean_composition) ref).map toAlt)))) := by
        simp only [recommend_alternatives, href]
      constructor
      · intro hnone
        rw [hrec] at hnone
        right
        refine ⟨ref, rfl, ?_⟩
        by_cases he : ((candidatesOf df (predict ref.clean_composition) ref).map toAlt).isEmpty
        · have := List.isEmpty_iff.mp he
          exact List.map_eq_nil_iff.mp this
        · rw [if_neg he] at hnone
          exact absurd hnone (by simp)
      · intro h
        rcases h with hall | ⟨ref2, href2, hcand⟩
        · rw [hall ref hrefdf] at hrefsub
          exact absurd hrefsub (by simp)
        · obtain rfl : ref2 = ref := (Option.some.inj href2).symm
          rw [hrec, hcand]
          simp
  refine ⟨main, ?_⟩
  intro df predict hall
  refine (main df predict _ 5).mpr (Or.inl ?_)
  rw [show queryKey "xyznonexistentdrug123".data = "xyznonexistentdrug123".data from by decide]
  exact hall

/-- C3 witness: the demo table contains no `clean_name` with the nonsense
substring, and the query returns `not_found`. -/
theorem c3_witness :
    recommend_alternatives demoTable demoPredict "xyznonexistentdrug123".data 5 = none :=
  c3_not_found_iff.2 demoTable demoPredict (by decide)

/-! ## Claim C4 -/

/-- Reduction of the `Except` monad bind on a success value. -/
theorem exceptBind_ok {α β ε : Type} (a : α) (f : α → Except ε β) :
    (Except.ok a >>= f : Except ε β) = f a := rfl

/-- Reduction of the `Except` monad bind on an error value. -/
theorem exceptBind_error {α β ε : Type} (e : ε) (f : α → Except ε β) :
    ((Except.error e : Except ε α) >>= f) = Except.error e := rfl

/-- C4 counterexample: with a vectorizer that fails on the reference's
composition, the call does not return `not_found` (`Except.ok none`) — the
error escapes `recommend_alternatives` because the source has no
try/except around the prediction calls. -/
theorem c4_counterexample :
    recommendE demoTable (fun _ : Str => (Except.error "vectorizer failure" : Except String Unit))
      (fun _ : Unit => Except.ok 0) (fun g : ℕ => Except.ok g)
      "paracetamol".data 5 = Except.error "vectorizer failure" ∧
    (Except.error "vectorizer failure" : Except String (Option (List Alt))) ≠
      Except.ok none := by
  constructor
  · rfl
  · intro h
    exact Except.noConfusion h

/-- C4 amended: a per-query failure of the vectorizer, the classifier or the
label decoder on the reference record is not converted to `not_found`; it
propagates out of the recommendation call unchanged (the caller sees the
raised exception, not a `None` return). -/
theorem c4_prediction_error_propagates :
    ∀ {Vec : Type} (df : List Record) (tf : Str → Except String Vec)
      (mp : Vec → Except String ℕ) (it : ℕ → Except String ℕ)
      (q : Str) (n : ℤ) (ref : Record) (e : String),
      referenceOf df (queryKey q) = some ref →
      (tf ref.clean_composition = Except.error e ∨
        (∃ v, tf ref.clean_composition = Except.ok v ∧ mp v = Except.error e) ∨
        (∃ v p, tf ref.clean_composition = Except.ok v ∧ mp v = Except.ok p ∧
          it p = Except.error e)) →
      recommendE df tf mp it q n = Except.error e := by
  intro Vec df tf mp it q n ref e href herr
  rcases herr with h | ⟨v, hv, h⟩ | ⟨v, p, hv, hp, h⟩
  · simp only [recommendE, href, h, exceptBind_error]
  · simp only [recommendE, href, hv, exceptBind_ok, h, exceptBind_error]
  · simp only [recommendE, href, hv, hp, exceptBind_ok, h, exceptBind_error]

/-- C4 witness: a failing classifier stage on the "crocin" query propagates
its error out of the call. -/
theorem c4_witness :
    recommendE demoTable (fun _ : Str => (Except.ok () : Except String Unit))
      (fun _ : Unit => (Except.error "classifier failure" : Except String ℕ))
      (fun g : ℕ => Except.ok g) "crocin".data 3 = Except.error "classifier failure" :=
  c4_prediction_error_propagates demoTable
    (fun _ : Str => (Except.ok () : Except String Unit))
    (fun _ : Unit => (Except.error "classifier failure" : Except String ℕ))
    (fun g : ℕ => Except.ok g) "crocin".data 3 demoRec2 "classifier failure"
    (by decide) (Or.inr (Or.inl ⟨(), rfl, rfl⟩))

/-! ## Claim C5 -/

/-- C5 counterexample: with `max_results = -1` the call returns a non-empty
sequence of alternatives (pandas `head(-1)` keeps all but the last sorted
candidate), so a non-positive `max_results` is neither rejected nor clamped
to zero results. -/
theorem c5_counterexample :
    recommend_alternatives demoTable demoPredict "paracetamol".data (-1) =
      some [toAlt demoRec2] ∧ [toAlt demoRec2] ≠ ([] : List Alt) := by
  constructor
  · decide
  · simp

/-- C5 amended: `max_results = 0` does clamp to zero results (a returned
sequence is empty), but a negative `max_results` follows pandas `head`
semantics — all sorted candidates except the last `|max_results|` are
returned, which can be a non-empty sequence. -/
theorem c5_nonpositive_clamps_only_at_zero :
    (∀ (df : List Record) (predict : Str → ℕ) (q : Str) (res : List Alt),
      recommend_alternatives df predict q 0 = some res → res = []) ∧
    (∃ res : List Alt, res ≠ [] ∧
      recommend_alternatives demoTable demoPredict "paracetamol".data (-1) = some res) := by
  constructor
  · intro df predict q res h
    cases href : referenceOf df (queryKey q) with
    | none =>
      simp only [recommend_alternatives, href] at h
      exact Option.noConfusion h
    | some ref =>
      simp only [recommend_alternatives, href] at h
      by_cases he : ((candidatesOf df (predict ref.clean_composition) ref).map toAlt).isEmpty
      · rw [if_pos he] at h
        exact absurd h (by simp)
      · rw [if_neg he] at h
        have hres := Option.some.inj h
        rw [← hres]
        simp [pdHead]
  · exact ⟨[toAlt demoRec2], by simp, by decide⟩

/-- C5 witness: with `max_results = 0` on the demo table the returned
sequence is empty. -/
theorem c5_witness :
    recommend_alternatives demoTable demoPredict "paracetamol".data 0 = some [] ∧
      ([] : List Alt) = [] :=
  ⟨by decide,
   c5_nonpositive_clamps_only_at_zero.1 demoTable demoPredict "paracetamol".data [] (by decide)⟩

/-! ## Claim C2 -/

/-- The price comparator is total. -/
theorem priceLe_total (a b : Alt) : priceLe a b = true ∨ priceLe b a = true := by
  unfold priceLe
  cases a.price <;> cases b.price <;> simp
  exact le_total _ _

/-- The price comparator is transitive. -/
theorem priceLe_trans (a b c : Alt) (hab : priceLe a b = true) (hbc : priceLe b c = true) :
    priceLe a c = true := by
  unfold priceLe at hab hbc ⊢
  cases hpa : a.price <;> cases hpb : b.price <;> cases hpc : c.price <;>
    simp_all
  exact le_trans hab hbc

/-- C2: with a positive `max_results`, whenever the call returns a result
sequence the sequence has at most `max_results` entries, entries with known
prices appear in non-decreasing price order, and no entry with a known price
follows an entry with a missing price. -/
theorem c2_sorted_and_bounded :
    ∀ (df : List Record) (predict : Str → ℕ) (q : Str) (n : ℤ) (res : List Alt),
      1 ≤ n → recommend_alternatives df predict q n = some res →
      (res.length : ℤ) ≤ n ∧
      res.Pairwise (fun a b => ∀ pa pb : ℚ, a.price = some pa → b.price = some pb → pa ≤ pb) ∧
      res.Pairwise (fun a b => a.price = none → b.price = none) := by
  intro df predict q n res hn h
  cases href : referenceOf df (queryKey q) with
  | none =>
    simp only [recommend_alternatives, href] at h
    exact Option.noConfusion h
  | some ref =>
    simp only [recommend_alternatives, href] at h
    by_cases he : ((candidatesOf df (predict ref.clean_composition) ref).map toAlt).isEmpty
    · rw [if_pos he] at h
      exact Option.noConfusion h
    · rw [if_neg he] at h
      obtain rfl : pdHead n (sortByPrice
          ((candidatesOf df (predict ref.clean_composition) ref).map toAlt)) = res :=
        Option.some.inj h
      have htake : pdHead n (sortByPrice
          ((candidatesOf df (predict ref.clean_composition) ref).map toAlt)) =
          (sortByPrice ((candidatesOf df (predict ref.clean_composition) ref).map toAlt)).take
            n.toNat := by
        unfold pdHead
        rw [if_pos (by omega : (0:ℤ) ≤ n)]
      have hsorted := pairwise_sortBy priceLe_total priceLe_trans
        ((candidatesOf df (predict ref.clean_composition) ref).map toAlt)
      have htaken : (((sortByPrice ((candidatesOf df (predict ref.clean_composition) ref).map
          toAlt)).take n.toNat).Pairwise (fun a b => priceLe a b = true)) := hsorted.take
      refine ⟨?_, ?_, ?_⟩
      · rw [htake]
        have h1 : ((sortByPrice ((candidatesOf df (predict ref.clean_composition) ref).map
            toAlt)).take n.toNat).length ≤ n.toNat := by
          simp [List.length_take]
        omega
      · rw [htake]
        refine htaken.imp ?_
        intro a b hab
        intro pa pb hpa hpb
        unfold priceLe at hab
        rw [hpa, hpb] at hab
        exact of_decide_eq_true hab
      · rw [htake]
        refine htaken.imp ?_
        intro a b hab
        intro hna
        unfold priceLe at hab
        rw [hna] at hab
        cases hpb : b.price with
        | none => rfl
        | some pb =>
          rw [hpb] at hab
          have hfb : (false : Bool) = true := hab
          exact Bool.noConfusion hfb

/-- C2 witness: the "paracetamol" query with `max_results = 5` returns the
two candidates, cheapest known price first, the missing-price entry last. -/
theorem c2_witness :
    recommend_alternatives demoTable demoPredict "paracetamol".data 5 =
      some [toAlt demoRec2, toAlt demoRec4] ∧
    (([toAlt demoRec2, toAlt demoRec4] : List Alt).length : ℤ) ≤ 5 ∧
    ([toAlt demoRec2, toAlt demoRec4] : List Alt).Pairwise
      (fun a b => ∀ pa pb : ℚ, a.price = some pa → b.price = some pb → pa ≤ pb) ∧
    ([toAlt demoRec2, toAlt demoRec4] : List Alt).Pairwise
      (fun a b => a.price = none → b.price = none) := by
  have h := c2_sorted_and_bounded demoTable demoPredict "paracetamol".data 5
    [toAlt demoRec2, toAlt demoRec4] (by norm_num) (by decide)
  exact ⟨by decide, h.1, h.2.1, h.2.2⟩

/-! ## Claim C9 -/

/-- The first element surviving `dropWhile` fails the predicate. -/
theorem dropWhile_eq_cons_head_false {p : Char → Bool} {l t : Str} {d : Char}
    (h : l.dropWhile p = d :: t) : p d = false := by
  induction l with
  | nil => simp at h
  | cons a l ih =>
    rw [List.dropWhile_cons] at h
    by_cases ha : p a
    · rw [if_pos ha] at h
      exact ih h
    · rw [if_neg ha] at h
      cases h
      simpa using ha

/-- `dropWhile` is the identity on a list whose members all fail the
predicate. -/
theorem dropWhile_all_false {p : Char → Bool} {l : Str} (h : ∀ c ∈ l, p c = false) :
    l.dropWhile p = l := by
  cases l with
  | nil => rfl
  | cons a t => simp [List.dropWhile_cons, h a (List.mem_cons_self a t)]

/-- Left strip keeps a string whose head is not whitespace. -/
theorem lstrip_cons_of_head {a : Char} (ha : a.isWhitespace = false) (t : Str) :
    lstrip (a :: t) = a :: t := by
  simp [lstrip, List.dropWhile_cons, ha]

/-- Stripping ignores one leading space. -/
theorem pyStrip_cons_space (x : Str) : pyStrip (' ' :: x) = pyStrip x := by
  simp [pyStrip, lstrip, List.dropWhile_cons]

/-- Unfolding of `collapseWs` at a whitespace head. -/
theorem collapseWs_cons_ws {c : Char} (hc : c.isWhitespace = true) (cs : Str) :
    collapseWs (c :: cs) = ' ' :: collapseWs (cs.dropWhile Char.isWhitespace) := by
  rw [collapseWs]
  simp [hc]

/-- Unfolding of `collapseWs` at a non-whitespace head. -/
theorem collapseWs_cons_notws {c : Char} (hc : c.isWhitespace = false) (cs : Str) :
    collapseWs (c :: cs) = c :: collapseWs cs := by
  rw [collapseWs]
  simp [hc]

/-- A leading whitespace character is absorbed by collapsing and
stripping. -/
theorem stripCollapse_cons_ws {c : Char} (hc : c.isWhitespace = true) (cs : Str) :
    pyStrip (collapseWs (c :: cs)) = pyStrip (collapseWs cs) := by
  rw [collapseWs_cons_ws hc]
  cases cs with
  | nil => simp [collapseWs, pyStrip, lstrip, rstrip]
  | cons d ds =>
    by_cases hd : d.isWhitespace
    · rw [show (d :: ds).dropWhile Char.isWhitespace = ds.dropWhile Char.isWhitespace from by
        simp [List.dropWhile_cons, hd]]
      rw [collapseWs_cons_ws hd]
    · have hd2 : d.isWhitespace = false := by simpa using hd
      rw [show (d :: ds).dropWhile Char.isWhitespace = d :: ds from by
        simp [List.dropWhile_cons, hd2]]
      exact pyStrip_cons_space _

/-- Collapsing distributes over a prefix with no whitespace. -/
theorem collapseWs_append_all {w : Str} (h : ∀ c ∈ w, c.isWhitespace = false) (y : Str) :
    collapseWs (w ++ y) = w ++ collapseWs y := by
  induction w with
  | nil => simp
  | cons a w ih =>
    rw [List.cons_append, collapseWs_cons_notws (h a (List.mem_cons_self a w)),
      ih (fun c hc => h c (List.mem_cons_of_mem a hc)), List.cons_append]

/-- Right strip passes over a prefix with no whitespace. -/
theorem rstrip_append_all {w : Str} (h : ∀ c ∈ w, c.isWhitespace = false) (y : Str) :
    rstrip (w ++ y) = w ++ rstrip y := by
  unfold rstrip
  rw [List.reverse_append, List.dropWhile_append]
  by_cases hy : ((y.reverse).dropWhile Char.isWhitespace).isEmpty
  · rw [if_pos hy]
    have hyy : (y.reverse).dropWhile Char.isWhitespace = [] := by
      simpa [List.isEmpty_iff] using hy
    have hw : (w.reverse).dropWhile Char.isWhitespace = w.reverse :=
      dropWhile_all_false (fun c hc => h c (List.mem_reverse.mp hc))
    rw [hw, hyy, List.reverse_reverse]
    simp
  · rw [if_neg hy]
    rw [List.reverse_append, List.reverse_reverse]

/-- After dropping leading whitespace and collapsing, nothing remains to be
left-stripped. -/
theorem lstrip_collapse_dropWhile (x : Str) :
    lstrip (collapseWs (x.dropWhile Char.isWhitespace)) =
      collapseWs (x.dropWhile Char.isWhitespace) := by
  cases h : x.dropWhile Char.isWhitespace with
  | nil => simp [collapseWs, lstrip]
  | cons d t =>
    have hd : d.isWhitespace = false := dropWhile_eq_cons_head_false h
    rw [collapseWs_cons_notws hd]
    exact lstrip_cons_of_head hd _

/-- Right strip of a leading space keeps it only in front of surviving
content. -/
theorem rstrip_cons_space (z : Str) :
    rstrip (' ' :: z) = (if rstrip z = [] then [] else ' ' :: rstrip z) := by
  unfold rstrip
  rw [show (' ' :: z).reverse = z.reverse ++ [' '] from by simp]
  rw [List.dropWhile_append]
  by_cases hz : ((z.reverse).dropWhile Char.isWhitespace).isEmpty
  · rw [if_pos hz]
    have hzz : (z.reverse).dropWhile Char.isWhitespace = [] := by
      simpa [List.isEmpty_iff] using hz
    rw [hzz]
    simp
  · rw [if_neg hz]
    have hne : (z.reverse).dropWhile Char.isWhitespace ≠ [] := by
      simpa [List.isEmpty_iff] using hz
    rw [List.reverse_append]
    rw [if_neg (fun hh => hne (by simpa using hh))]
    simp

/-- Every word produced by `wordsOf` is non-empty (first word case). -/
theorem wordsOf_first_ne_nil : ∀ (l : Str) (w : Str) (t : List Str),
    wordsOf l = w :: t → w ≠ [] := by
  intro l
  induction l using wordsOf.induct with
  | case1 =>
    intro w t h
    simp [wordsOf] at h
  | case2 c cs hc ih =>
    intro w t h
    rw [wordsOf, if_pos hc] at h
    exact ih w t h
  | case3 c cs hc ih =>
    intro w t h
    rw [wordsOf, if_neg hc] at h
    have := (List.cons.inj h).1
    rw [← this]
    simp

/-- Joining a non-empty first word gives a non-empty string. -/
theorem joinSpace_ne_nil {w : Str} (hw : w ≠ []) (t : List Str) :
    joinSpace (w :: t) ≠ [] := by
  cases t with
  | nil => simpa [joinSpace] using hw
  | cons v vs => simp [joinSpace]

/-- Collapsing whitespace runs to single spaces and then stripping both ends
renders exactly the whitespace-separated words joined by single spaces. -/
theorem stripCollapse_eq_joinWords : ∀ l : Str, pyStrip (collapseWs l) = joinSpace (wordsOf l) := by
  intro l
  induction l using wordsOf.induct with
  | case1 => simp [collapseWs, wordsOf, joinSpace, pyStrip, lstrip, rstrip]
  | case2 c cs hc ih =>
    rw [stripCollapse_cons_ws hc, ih, wordsOf, if_pos hc]
  | case3 c cs hc ih =>
    have hc2 : c.isWhitespace = false := by simpa using hc
    rw [wordsOf, if_neg hc]
    have hallw : ∀ x ∈ (c :: cs.takeWhile (fun x => !x.isWhitespace)),
        x.isWhitespace = false := by
      intro x hx
      rcases List.mem_cons.mp hx with rfl | hx
      · exact hc2
      · have := List.mem_takeWhile_imp hx
        simpa using this
    have hsplit : c :: cs = (c :: cs.takeWhile (fun x => !x.isWhitespace)) ++
        cs.dropWhile (fun x => !x.isWhitespace) := by
      rw [List.cons_append, List.takeWhile_append_dropWhile]
    rw [hsplit, collapseWs_append_all hallw]
    have hps : pyStrip ((c :: cs.takeWhile (fun x => !x.isWhitespace)) ++
        collapseWs (cs.dropWhile (fun x => !x.isWhitespace))) =
        (c :: cs.takeWhile (fun x => !x.isWhitespace)) ++
          rstrip (collapseWs (cs.dropWhile (fun x => !x.isWhitespace))) := by
      unfold pyStrip
      rw [List.cons_append, lstrip_cons_of_head hc2, ← List.cons_append,
        rstrip_append_all hallw]
    rw [hps]
    cases hrest : cs.dropWhile (fun x => !x.isWhitespace) with
    | nil => simp [collapseWs, rstrip, wordsOf, joinSpace]
    | cons d ds =>
      rw [hrest] at ih
      have hd : d.isWhitespace = true := by
        have := dropWhile_eq_cons_head_false hrest
        simpa using this
      rw [collapseWs_cons_ws hd, rstrip_cons_space]
      have hz : rstrip (collapseWs (ds.dropWhile Char.isWhitespace)) =
          joinSpace (wordsOf (d :: ds)) := by
        calc rstrip (collapseWs (ds.dropWhile Char.isWhitespace))
            = pyStrip (collapseWs (ds.dropWhile Char.isWhitespace)) := by
              unfold pyStrip
              rw [lstrip_collapse_dropWhile]
          _ = pyStrip (collapseWs (d :: ds)) := by
              rw [collapseWs_cons_ws hd, pyStrip_cons_space]
          _ = joinSpace (wordsOf (d :: ds)) := ih
      rw [hz]
      cases hwords : wordsOf (d :: ds) with
      | nil => simp [joinSpace]
      | cons w2 ws2 =>
        have hw2 : w2 ≠ [] := wordsOf_first_ne_nil _ _ _ hwords
        have hne : joinSpace (w2 :: ws2) ≠ [] := joinSpace_ne_nil hw2 ws2
        rw [if_neg hne]
        simp [joinSpace]

/-- C9: the source's `clean_composition` agrees with the spec's description
on every input: an absent value gives the empty string, and a present string
is lowercased, has each of the five punctuation characters replaced by a
space, has whitespace runs collapsed to single spaces and both ends trimmed
(stated as joining the whitespace-separated words with single spaces).  Both
sides are pure Lean functions, so determinism and freedom from side effects
are inherent. -/
theorem c9_normalizer_matches_spec :
    clean_composition none = [] ∧
    ∀ t : Option Str, clean_composition t = cleanCompositionSpec t := by
  refine ⟨rfl, ?_⟩
  intro t
  cases t with
  | none => rfl
  | some s => exact stripCollapse_eq_joinWords (replacePunct (pyLower s))
